import Mathlib

/-!
Verification development for the `dopashift-webhook` repository
(`api/tally-webhook.js`, final variant).

The JavaScript source is shallowly embedded below:

* `verifyTallySignature` models the signature verifier (header regex parsing,
  HMAC-SHA256 over `t + "." + raw`, hex decoding, `crypto.timingSafeEqual`).
  SHA-256 and HMAC are implemented executably over `Nat` byte lists, mirroring
  Node's `crypto.createHmac('sha256', secret).update(msg).digest('hex')`.
* `getEmail`, `getFirstName`, `getArchetype`, `computeArchetypeFromScores`
  model the field extractors over the spec's `FormField` data model
  (`{label: string|null, type: string, value: string|number|null}`).
* `handler` models the exported request handler as a pure function from the
  request, environment and external collaborators (JSON parser, outbound
  subscriber call) to a response together with a trace of observable effects.

Modelling conventions: JS strings are Lean `String`s; machine floats are
modelled by `ℚ` (the payloads exercised by the spec use ordinary finite
numbers; `NaN`/`±Infinity` inputs are outside the model, and the
`-Infinity` initial accumulator of the scoring loop is modelled by `Option`);
absent (`undefined`) and `null` JS values are modelled by `Option`.
-/

/-- Characters matched by JavaScript's `\s` regex class (also the characters
removed by `String.prototype.trim`): tab, LF, VT, FF, CR, space, NBSP, and the
Unicode space separators, line separators and BOM. -/
def jsWS (c : Char) : Bool :=
  let n := c.toNat
  n == 9 || n == 10 || n == 11 || n == 12 || n == 13 || n == 32 ||
  n == 160 || n == 5760 || (decide (8192 ≤ n) && decide (n ≤ 8202)) ||
  n == 8232 || n == 8233 || n == 8239 || n == 8287 || n == 12288 || n == 65279

/-- JavaScript `String.prototype.trim` on a character list: drop `\s` characters
from both ends. -/
def jsTrimL (l : List Char) : List Char :=
  ((l.dropWhile jsWS).reverse.dropWhile jsWS).reverse

/-- JavaScript `String.prototype.trim`. -/
def jsTrim (s : String) : String := ⟨jsTrimL s.data⟩

/-- ASCII lowercasing of a string (JS `toLowerCase` on the ASCII labels this
program compares; implemented by character mapping so that it computes by
kernel reduction). -/
def lowerStr (s : String) : String := ⟨s.data.map Char.toLower⟩

/-- Case-sensitive character comparison (used for the `t=` key, whose regex has
no `i` flag). -/
def charEq (a b : Char) : Bool := a == b

/-- Case-insensitive character comparison, modelling the `i` flag of
`/(?:^|,)\s*v1=([a-f0-9]+)/i`. -/
def charCI (a b : Char) : Bool := a.toLower == b.toLower

/-- Strip an expected key (e.g. `t=` or `v1=`) from the front of the input,
comparing characters with `eq`; returns the remainder on success. -/
def stripKeyBy (eq : Char → Char → Bool) : List Char → List Char → Option (List Char)
  | [], s => some s
  | _ :: _, [] => none
  | k :: ks, c :: cs => if eq k c then stripKeyBy eq ks cs else none

/-- Attempt the tail of the regexes `(?:^|,)\s*KEY(CLASS+)` at one anchor
position: skip `\s*`, match the key, then greedily capture a non-empty run of
`valid` characters. -/
def tryKeyAt (eq : Char → Char → Bool) (key : List Char) (valid : Char → Bool)
    (s : List Char) : Option (List Char) :=
  match stripKeyBy eq key (s.dropWhile jsWS) with
  | none => none
  | some rest =>
    let cap := rest.takeWhile valid
    if cap = [] then none else some cap

/-- Scan the remaining positions of the subject for a `,`-anchored match of
`(?:^|,)\s*KEY(CLASS+)`, leftmost first (the `^` alternative applies only at
position 0 and is handled by `execKV`). -/
def scanKV (eq : Char → Char → Bool) (key : List Char) (valid : Char → Bool) :
    List Char → Option (List Char)
  | [] => none
  | c :: rest =>
    if c = ',' then
      match tryKeyAt eq key valid rest with
      | some cap => some cap
      | none => scanKV eq key valid rest
    else scanKV eq key valid rest

/-- Leftmost match of `(?:^|,)\s*KEY(CLASS+)` on the whole subject, returning
the captured group, as JavaScript `RegExp.prototype.exec` does. -/
def execKV (eq : Char → Char → Bool) (key : List Char) (valid : Char → Bool)
    (s : List Char) : Option (List Char) :=
  match tryKeyAt eq key valid s with
  | some cap => some cap
  | none => scanKV eq key valid s

/-- Capture of `/(?:^|,)\s*t=([^,]+)/.exec(signatureHeader)`. -/
def tMatch (s : List Char) : Option (List Char) :=
  execKV charEq ['t', '='] (fun c => c != ',') s

/-- Character class `[a-f0-9]` under the `i` flag. -/
def hexDigitCI (c : Char) : Bool :=
  (decide ('0' ≤ c) && decide (c ≤ '9')) ||
  (decide ('a' ≤ c) && decide (c ≤ 'f')) ||
  (decide ('A' ≤ c) && decide (c ≤ 'F'))

/-- Capture of `/(?:^|,)\s*v1=([a-f0-9]+)/i.exec(signatureHeader)`. -/
def vMatch (s : List Char) : Option (List Char) :=
  execKV charCI ['v', '1', '='] hexDigitCI s

/-- Numeric value of a hex digit, `none` for non-hex characters. -/
def hexVal (c : Char) : Option Nat :=
  if decide ('0' ≤ c) && decide (c ≤ '9') then some (c.toNat - 48)
  else if decide ('a' ≤ c) && decide (c ≤ 'f') then some (c.toNat - 87)
  else if decide ('A' ≤ c) && decide (c ≤ 'F') then some (c.toNat - 55)
  else none

/-- Node `Buffer.from(str, 'hex')`: decode hex-digit pairs into bytes,
stopping at the first invalid pair (a trailing unpaired digit is dropped). -/
def nodeHexDecode : List Char → List Nat
  | c1 :: c2 :: rest =>
    match hexVal c1, hexVal c2 with
    | some a, some b => (16 * a + b) :: nodeHexDecode rest
    | _, _ => []
  | _ => []

/-- Node `crypto.timingSafeEqual`: defined only on equal-length byte buffers
(it throws otherwise, modelled by `none`); on equal lengths it is byte-sequence
equality (its constant-time execution is a timing property with no observable
counterpart in a functional model). -/
def timingSafeEqual (a b : List Nat) : Option Bool :=
  if a.length = b.length then some (decide (a = b)) else none

/-! SHA-256 and HMAC-SHA256, as computed by Node's `crypto` module.
Bytes and 32-bit words are `Nat`s kept below 2^8 / 2^32 with explicit `%`. -/

/-- Truncation to a 32-bit word. -/
def w32 (n : Nat) : Nat := n % 4294967296

/-- Right rotation of a 32-bit word. -/
def rotr (k x : Nat) : Nat := w32 ((x >>> k) ||| (x <<< (32 - k)))

/-- The 64 SHA-256 round constants. -/
def K256 : List Nat :=
  [1116352408, 1899447441, 3049323471, 3921009573, 961987163,
   1508970993, 2453635748, 2870763221, 3624381080, 310598401,
   607225278, 1426881987, 1925078388, 2162078206, 2614888103,
   3248222580, 3835390401, 4022224774, 264347078, 604807628,
   770255983, 1249150122, 1555081692, 1996064986, 2554220882,
   2821834349, 2952996808, 3210313671, 3336571891, 3584528711,
   113926993, 338241895, 666307205, 773529912, 1294757372,
   1396182291, 1695183700, 1986661051, 2177026350, 2456956037,
   2730485921, 2820302411, 3259730800, 3345764771, 3516065817,
   3600352804, 4094571909, 275423344, 430227734, 506948616,
   659060556, 883997877, 958139571, 1322822218, 1537002063,
   1747873779, 1955562222, 2024104815, 2227730452, 2361852424,
   2428436474, 2756734187, 3204031479, 3329325298]

/-- SHA-256 working state (eight 32-bit words). -/
structure H8 where
  a : Nat
  b : Nat
  c : Nat
  d : Nat
  e : Nat
  f : Nat
  g : Nat
  h : Nat

/-- SHA-256 initial hash value. -/
def sha256Init : H8 :=
  ⟨1779033703, 3144134277, 1013904242, 2773480762,
   1359893119, 2600822924, 528734635, 1541459225⟩

/-- One SHA-256 round. -/
def sha256Round (st : H8) (k w : Nat) : H8 :=
  let s1 := rotr 6 st.e ^^^ rotr 11 st.e ^^^ rotr 25 st.e
  let ch := (st.e &&& st.f) ^^^ ((st.e ^^^ 4294967295) &&& st.g)
  let t1 := w32 (st.h + s1 + ch + k + w)
  let s0 := rotr 2 st.a ^^^ rotr 13 st.a ^^^ rotr 22 st.a
  let maj := (st.a &&& st.b) ^^^ (st.a &&& st.c) ^^^ (st.b &&& st.c)
  let t2 := w32 (s0 + maj)
  ⟨w32 (t1 + t2), st.a, st.b, st.c, w32 (st.d + t1), st.e, st.f, st.g⟩

/-- Parse four big-endian bytes as a 32-bit word. -/
def be32 (a b c d : Nat) : Nat := ((a * 256 + b) * 256 + c) * 256 + d

/-- Group a byte list into big-endian 32-bit words. -/
def toWords : List Nat → List Nat
  | a :: b :: c :: d :: rest => be32 a b c d :: toWords rest
  | _ => []

/-- Extend the sixteen message words of a block to sixty-four. -/
def extendW (ws : List Nat) : List Nat :=
  (List.range 48).foldl
    (fun w _ =>
      let n := w.length
      let x15 := w.getD (n - 15) 0
      let x2 := w.getD (n - 2) 0
      let s0 := rotr 7 x15 ^^^ rotr 18 x15 ^^^ (x15 >>> 3)
      let s1 := rotr 17 x2 ^^^ rotr 19 x2 ^^^ (x2 >>> 10)
      w ++ [w32 (w.getD (n - 16) 0 + s0 + w.getD (n - 7) 0 + s1)])
    ws

/-- Compress one 64-byte block into the hash state. -/
def sha256Block (hs : H8) (block : List Nat) : H8 :=
  let ws := extendW (toWords block)
  let st := (K256.zip ws).foldl (fun st kw => sha256Round st kw.1 kw.2) hs
  ⟨w32 (hs.a + st.a), w32 (hs.b + st.b), w32 (hs.c + st.c), w32 (hs.d + st.d),
   w32 (hs.e + st.e), w32 (hs.f + st.f), w32 (hs.g + st.g), w32 (hs.h + st.h)⟩

/-- Big-endian bytes of a 64-bit length field. -/
def be64Bytes (n : Nat) : List Nat :=
  [(n >>> 56) % 256, (n >>> 48) % 256, (n >>> 40) % 256, (n >>> 32) % 256,
   (n >>> 24) % 256, (n >>> 16) % 256, (n >>> 8) % 256, n % 256]

/-- SHA-256 padding: `0x80`, zeros to 56 mod 64, then the bit length. -/
def sha256Pad (msg : List Nat) : List Nat :=
  let z := (64 - ((msg.length + 9) % 64)) % 64
  msg ++ [128] ++ List.replicate z 0 ++ be64Bytes (8 * msg.length)

/-- Split a byte list into 64-byte chunks (fuel-driven structural recursion;
the fuel `bs.length` always suffices since every chunk consumes 64 bytes). -/
def chunk64Aux : Nat → List Nat → List (List Nat)
  | 0, _ => []
  | _, [] => []
  | fuel + 1, b :: bs => (b :: bs).take 64 :: chunk64Aux fuel ((b :: bs).drop 64)

/-- Split a byte list into 64-byte chunks. -/
def chunk64 (bs : List Nat) : List (List Nat) := chunk64Aux bs.length bs

/-- Big-endian bytes of a 32-bit word. -/
def be32Bytes (n : Nat) : List Nat :=
  [(n >>> 24) % 256, (n >>> 16) % 256, (n >>> 8) % 256, n % 256]

/-- SHA-256 of a byte list, as a 32-byte list. -/
def sha256 (msg : List Nat) : List Nat :=
  let fin := (chunk64 (sha256Pad msg)).foldl sha256Block sha256Init
  be32Bytes fin.a ++ be32Bytes fin.b ++ be32Bytes fin.c ++ be32Bytes fin.d ++
  be32Bytes fin.e ++ be32Bytes fin.f ++ be32Bytes fin.g ++ be32Bytes fin.h

/-- HMAC-SHA256 over byte lists (`crypto.createHmac('sha256', key)`). -/
def hmacSha256 (key msg : List Nat) : List Nat :=
  let k0 := if 64 < key.length then sha256 key else key
  let k1 := k0 ++ List.replicate (64 - k0.length) 0
  let ipad := k1.map (fun b => b ^^^ 54)
  let opad := k1.map (fun b => b ^^^ 92)
  sha256 (opad ++ sha256 (ipad ++ msg))

/-- UTF-8 encoding of a Unicode code point. -/
def utf8Char (n : Nat) : List Nat :=
  if n < 128 then [n]
  else if n < 2048 then [192 + n / 64, 128 + n % 64]
  else if n < 65536 then [224 + n / 4096, 128 + (n / 64) % 64, 128 + n % 64]
  else [240 + n / 262144, 128 + (n / 4096) % 64, 128 + (n / 64) % 64, 128 + n % 64]

/-- UTF-8 bytes of a string (Node `Buffer.from(s, 'utf8')` / `.update(s)`). -/
def utf8 (s : String) : List Nat :=
  s.data.foldr (fun c acc => utf8Char c.toNat ++ acc) []

/-- The sixteen lowercase hex digits, `0`–`9` then `a`–`f`, generated from
their code points. -/
def hexChars16 : List Char :=
  (List.range 10).map (fun n => Char.ofNat (48 + n))
    ++ (List.range 6).map (fun n => Char.ofNat (97 + n))

/-- Two lowercase hex digits of a byte. -/
def byteHex (b : Nat) : List Char :=
  [hexChars16.getD (b / 16 % 16) '0', hexChars16.getD (b % 16) '0']

/-- Lowercase hex rendering of a byte list (Node `.digest('hex')`). -/
def bytesToHexChars (bs : List Nat) : List Char :=
  bs.foldr (fun b acc => byteHex b ++ acc) []

/-- `crypto.createHmac('sha256', secret).update(msg).digest('hex')` on strings. -/
def hmacSha256Hex (secret msg : String) : String :=
  ⟨bytesToHexChars (hmacSha256 (utf8 secret) (utf8 msg))⟩

/-- Body of `verifyTallySignature` after the null/empty header check, as a
function of the header's characters: parse `t` and `v1` with the two regexes,
trim both captures, recompute the HMAC of `t + "." + raw` and compare the
hex-decoded buffers with `timingSafeEqual` (whose throw on a length mismatch
is caught and turned into `false`). -/
def verifyCore (raw : String) (hl : List Char) (secret : String) : Bool :=
  match tMatch hl with
  | none => false
  | some tc =>
    match vMatch hl with
    | none => false
    | some vc =>
      let t : String := ⟨jsTrimL tc⟩
      let v1 : List Char := jsTrimL vc
      let expectedHex : String := hmacSha256Hex secret (t ++ "." ++ raw)
      match timingSafeEqual (nodeHexDecode v1) (nodeHexDecode expectedHex.data) with
      | some b => b
      | none => false

/-- `verifyTallySignature(raw, signatureHeader, secret)` from
`api/tally-webhook.js` (final variant, lines 304–325). An absent header is
`none`; `if (!signatureHeader)` also rejects the empty string. -/
def verifyTallySignature (raw : String) (hdr : Option String) (secret : String) : Bool :=
  match hdr with
  | none => false
  | some h => if h = "" then false else verifyCore raw h.data secret

/-! Field extraction. The spec's `FormField` data model is
`{label: string|null, type: string, value: string|number|null}`; numbers are
modelled by `ℚ` and absent/null by `Option` (see the header comment). -/

/-- A JS field value: a string or a number (`null`/absent is `Option.none`
at the use site). -/
inductive FVal where
  | str (s : String)
  | num (q : ℚ)
deriving DecidableEq

/-- A form field record, per the spec's `FormField` data model. -/
structure FormField where
  label : Option String
  type : Option String
  value : Option FVal
deriving DecidableEq

/-- JS truthiness of a `string|number|null|undefined` value: `null`,
`undefined`, `''` and `0` are falsy. (`NaN` is outside the `ℚ` model.) -/
def fvTruthy : Option FVal → Bool
  | none => false
  | some (.str s) => s != ""
  | some (.num q) => q != 0

/-- `f.label || ''`: a nullish or empty label collapses to `''`. -/
def labelStr (f : FormField) : String := f.label.getD ""

/-- JS `String(value)` on a field value. Integers print as JS does; the Lean
rational rendering stands in for JS float formatting on non-integers (no claim
exercises a non-integer here), and `String(undefined)` is only reachable
outside the truthy guards. -/
def jsStringOfVal : Option FVal → String
  | some (.str s) => s
  | some (.num q) => if q.den == 1 then toString q.num else toString q
  | none => "undefined"

/-- Does `n` occur at the head of `h`? (substring matching helper). -/
def headMatch : List Char → List Char → Bool
  | [], _ => true
  | n :: ns, h =>
    match h with
    | [] => false
    | c :: cs => if n == c then headMatch ns cs else false

/-- Does `n` occur as a contiguous substring of `h`? -/
def containsSub (n : List Char) : List Char → Bool
  | [] => headMatch n []
  | c :: rest => headMatch n (c :: rest) || containsSub n rest

/-- `/email/i.test(f.label || '')`: the label contains `email`
case-insensitively. -/
def hasEmailLabel (f : FormField) : Bool :=
  containsSub "email".data (lowerStr (labelStr f)).data

/-- Character class `[^\s@]` of the email regex. -/
def okEmailChar (c : Char) : Bool := !(jsWS c) && c != '@'

/-- `/^[^\s@]+@[^\s@]+\.[^\s@]+$/.test(s)`: there is an `@` at position
`i ≥ 1`, every other character is neither whitespace nor `@`, and some `.`
occurs strictly between `@` and the final character (so all three runs are
non-empty; the runs may themselves contain further dots). -/
def emailish (cs : List Char) : Bool :=
  (List.range cs.length).any fun i =>
    decide (1 ≤ i) && (cs.getD i ' ' == '@') &&
    (List.range cs.length).all (fun k => (k == i) || okEmailChar (cs.getD k ' ')) &&
    (List.range cs.length).any (fun j =>
      decide (i + 2 ≤ j) && decide (j + 2 ≤ cs.length) && (cs.getD j ' ' == '.'))

/-- Priority 1 of `getEmail`: `f.type === 'INPUT_EMAIL' && f.value`. -/
def emailP1 (f : FormField) : Bool :=
  f.type == some "INPUT_EMAIL" && fvTruthy f.value

/-- Priority 2 of `getEmail`: `/email/i.test(f.label || '') && f.value`. -/
def emailP2 (f : FormField) : Bool :=
  hasEmailLabel f && fvTruthy f.value

/-- Priority 3 of `getEmail`:
`f.type === 'PAYMENT' && /email/i.test(f.label || '') && f.value`. -/
def emailP3 (f : FormField) : Bool :=
  f.type == some "PAYMENT" && (hasEmailLabel f && fvTruthy f.value)

/-- Priority 4 of `getEmail`: a text field whose string value matches the
email pattern. -/
def emailP4 (f : FormField) : Bool :=
  match f.type, f.value with
  | some t, some (.str s) => (t == "INPUT_TEXT" || t == "TEXTAREA") && emailish s.data
  | _, _ => false

/-- `getEmail(fields)` from `api/tally-webhook.js` (final variant,
lines 327–349): four prioritized `find` passes, first match wins, result
trimmed (`String(v).trim()`; the fourth branch's value is already a string). -/
def getEmail (fields : List FormField) : Option String :=
  match fields.find? emailP1 with
  | some t => some (jsTrim (jsStringOfVal t.value))
  | none =>
    match fields.find? emailP2 with
    | some f => some (jsTrim (jsStringOfVal f.value))
    | none =>
      match fields.find? emailP3 with
      | some f => some (jsTrim (jsStringOfVal f.value))
      | none =>
        match fields.find? emailP4 with
        | some f => some (jsTrim (jsStringOfVal f.value))
        | none => none

/-- An ordered rule list: predicate plus extractor, evaluated first-match-wins
(the spec's description of email resolution as a prioritized rule chain). -/
def firstRuleMatch : List ((FormField → Bool) × (FormField → String)) →
    List FormField → Option String
  | [], _ => none
  | (p, e) :: rs, fs =>
    match fs.find? p with
    | some f => some (e f)
    | none => firstRuleMatch rs fs

/-- Email resolution as the spec states it: priorities 1–4 in order, first
match wins, trimmed string results. -/
def getEmailSpec (fs : List FormField) : Option String :=
  firstRuleMatch
    [(emailP1, fun f => jsTrim (jsStringOfVal f.value)),
     (emailP2, fun f => jsTrim (jsStringOfVal f.value)),
     (emailP3, fun f => jsTrim (jsStringOfVal f.value)),
     (emailP4, fun f => jsTrim (jsStringOfVal f.value))] fs

/-- `getEmail` with the payment-email branch (priority 3) removed, for the
subsumption claim. -/
def getEmailNoPay (fields : List FormField) : Option String :=
  match fields.find? emailP1 with
  | some t => some (jsTrim (jsStringOfVal t.value))
  | none =>
    match fields.find? emailP2 with
    | some f => some (jsTrim (jsStringOfVal f.value))
    | none =>
      match fields.find? emailP4 with
      | some f => some (jsTrim (jsStringOfVal f.value))
      | none => none

/-- Label variants accepted for the first name. -/
def nameLabels : List String :=
  ["First name", "First Name", "Vorname", "Name", "first_name", "first name"]

/-- The loop `for (const n of names) { fields.find(...) }`: first label
variant that some field matches (case-insensitive equality, truthy value). -/
def findByNames : List String → List FormField → Option FormField
  | [], _ => none
  | n :: ns, fs =>
    match fs.find? (fun x => lowerStr (labelStr x) == lowerStr n && fvTruthy x.value) with
    | some f => some f
    | none => findByNames ns fs

/-- The payment-name fallback predicate of `getFirstName`. -/
def payNameP (f : FormField) : Bool :=
  f.type == some "PAYMENT" && (containsSub "name".data (lowerStr (labelStr f)).data
    && fvTruthy f.value)

/-- `getFirstName(fields)` (final variant, lines 351–360). -/
def getFirstName (fs : List FormField) : Option String :=
  match findByNames nameLabels fs with
  | some f => some (jsTrim (jsStringOfVal f.value))
  | none =>
    match fs.find? payNameP with
    | some f => some (jsTrim (jsStringOfVal f.value))
    | none => none

/-- `getArchetype(fields)` (final variant, lines 362–368). -/
def getArchetype (fs : List FormField) : Option String :=
  match findByNames ["Archetype", "Type", "Result"] fs with
  | some f => some (jsTrim (jsStringOfVal f.value))
  | none => none

/-- The static score-label → display-name map. Modelled as an association
list with own-property lookup (properties inherited from `Object.prototype`
are outside the model); every display name is a non-empty string, so
`map[label]` truthiness is `Option.isSome` of the lookup. -/
def scoreMap : List (String × String) :=
  [("score_scroller", "Scroller"), ("score_binger", "Binger"),
   ("score_escapist", "Escapist"), ("score_juggler", "Juggler"),
   ("score_overthinker", "Overthinker"), ("score_chaser", "Chaser"),
   ("score_muted", "Muted"), ("score_none", "None")]

/-- A field qualifies for the scoring fallback:
`f.type === 'CALCULATED_FIELDS' && typeof f.value === 'number' && map[label]`. -/
def qualifies (f : FormField) : Bool :=
  f.type == some "CALCULATED_FIELDS" &&
  ((match f.value with | some (.num _) => true | _ => false) &&
   (List.lookup (lowerStr (labelStr f)) scoreMap).isSome)

/-- Numeric value of a qualifying field (`0` as a don't-care default). -/
def getVQ (f : FormField) : ℚ :=
  match f.value with
  | some (.num v) => v
  | _ => 0

/-- One iteration of the `for (const f of fields)` loop of
`computeArchetypeFromScores`: the running `bestKey = null / bestVal = -Infinity`
pair is modelled by `Option`, and `f.value > bestVal` by the strict comparison
(vacuously true against `-Infinity`, i.e. the `none` state). -/
def scoreStep (best : Option (String × ℚ)) (f : FormField) : Option (String × ℚ) :=
  let label := lowerStr (labelStr f)
  match f.value with
  | some (.num v) =>
    if f.type == some "CALCULATED_FIELDS" && (List.lookup label scoreMap).isSome then
      match best with
      | none => some (label, v)
      | some (k, bv) => if bv < v then some (label, v) else some (k, bv)
    else best
  | _ => best

/-- The loop's final `bestKey/bestVal` state. -/
def bestPair (fields : List FormField) : Option (String × ℚ) :=
  fields.foldl scoreStep none

/-- `computeArchetypeFromScores(fields)` (final variant, lines 370–396):
`bestKey ? map[bestKey] : undefined`. -/
def computeArchetypeFromScores (fields : List FormField) : Option String :=
  match bestPair fields with
  | some (k, _) => List.lookup k scoreMap
  | none => none

/-- Maximum of a rational list, `none` when empty. -/
def listMaxQ : List ℚ → Option ℚ
  | [] => none
  | v :: vs => some (match listMaxQ vs with | none => v | some m => max v m)

/-- The spec's description of the scoring fallback, as a pair: among the
qualifying fields take the strictly greatest numeric value, resolving exact
ties to the first-encountered field. -/
def specScorePair (fields : List FormField) : Option (String × ℚ) :=
  match listMaxQ ((fields.filter qualifies).map getVQ) with
  | none => none
  | some m =>
    match (fields.filter qualifies).find? (fun f => getVQ f == m) with
    | some f => some (lowerStr (labelStr f), m)
    | none => none

/-- The spec's description of the scoring fallback: map the winner's label
through the static score map; `none` when no field qualifies. -/
def specScore (fields : List FormField) : Option String :=
  match specScorePair fields with
  | some (k, _) => List.lookup k scoreMap
  | none => none

/-- Merge two running `bestKey/bestVal` states: the right state wins only on a
strictly greater value (proof device for relating the scoring loop to its
argmax description). -/
def combinePair : Option (String × ℚ) → Option (String × ℚ) → Option (String × ℚ)
  | none, r => r
  | some p, none => some p
  | some (k, v), some (k', v') => if v < v' then some (k', v') else some (k, v)

/-! The request handler, modelled as a pure function. External collaborators
(the JSON parser and the outbound subscriber call) are parameters, and the
observable side effects are returned as an ordered trace. -/

/-- A parsed JSON value (the possible results of `JSON.parse`). -/
inductive JVal where
  | null
  | jbool (b : Bool)
  | num (q : ℚ)
  | str (s : String)
  | arr (xs : List JVal)
  | obj (kvs : List (String × JVal))

/-- JS object property lookup on an object literal: the last binding of a key
wins (as for duplicate keys in `JSON.parse`). -/
def jlookup (k : String) : List (String × JVal) → Option JVal
  | [] => none
  | (k', v) :: rest =>
    match jlookup k rest with
    | some v' => some v'
    | none => if k' = k then some v else none

/-- Optional-chaining property access `x?.k`: `undefined` on anything but an
object with the key (accessing a property of a non-object primitive also
yields `undefined` for the keys used here). -/
def jsGet : Option JVal → String → Option JVal
  | some (.obj kvs), k => jlookup k kvs
  | _, _ => none

/-- `Array.isArray(body?.data?.fields) ? body.data.fields : []`. -/
def fieldsOf (j : JVal) : List JVal :=
  match jsGet (jsGet (some j) "data") "fields" with
  | some (.arr xs) => xs
  | _ => []

/-- Read one field record out of a JSON element. Faithful on the spec's
`FormField` domain (`label: string|null`, `type: string`, `value:
string|number|null`, each possibly absent); other element shapes collapse to
the absent cases. -/
def decodeField (j : JVal) : FormField :=
  { label := match jsGet (some j) "label" with | some (.str s) => some s | _ => none
  , type := match jsGet (some j) "type" with | some (.str s) => some s | _ => none
  , value := match jsGet (some j) "value" with
      | some (.str s) => some (.str s)
      | some (.num q) => some (.num q)
      | _ => none }

/-- JSON encoding of a field record (for constructing concrete payloads). -/
def fieldToJson (f : FormField) : JVal :=
  .obj [("label", match f.label with | some s => .str s | none => .null),
        ("type", match f.type with | some s => .str s | none => .null),
        ("value", match f.value with
          | some (.str s) => .str s
          | some (.num q) => .num q
          | none => .null)]

/-- A well-formed webhook payload `{data: {fields: [...]}}` around a field
list. -/
def mkPayload (fs : List FormField) : JVal :=
  .obj [("data", .obj [("fields", .arr (fs.map fieldToJson))])]

/-- Environment configuration read by the handler. -/
structure Env where
  secret : Option String
  debug : Bool
  mlApi : Option String
  mlGroup : Option String

/-- An inbound request: method, raw body bytes (as UTF-8 text) and the
`tally-signature` header. -/
structure Req where
  method : String
  rawBody : String
  sigHeader : Option String

/-- Result of the outbound MailerLite call (`mlRes.ok` / `mlRes.status`). -/
structure MLResult where
  ok : Bool
  status : Nat

/-- The response bodies the handler can produce. -/
inductive RespBody where
  | alive
  | notConfigured
  | invalidSignature
  | handlerError
  | missingEmail (archetype : Option String)
  | mlNotConfigured
  | mlError (status : Nat)
  | okSubscribed (email group : String)
deriving DecidableEq

/-- An HTTP response: status code and body. -/
structure Resp where
  status : Nat
  body : RespBody
deriving DecidableEq

/-- Observable effects of one request, in order: attempting `JSON.parse` on
the raw body, running field extraction, and the outbound subscriber call with
its payload. -/
inductive WebEvent where
  | parseAttempt
  | extract
  | outbound (email : String) (name archetype : Option String) (group : String)
deriving DecidableEq

/-- JS truthiness of an optional string (`undefined` and `''` are falsy). -/
def strTruthyOpt : Option String → Bool
  | none => false
  | some s => s != ""

/-- `x || undefined` on an optional string. -/
def normOpt (o : Option String) : Option String :=
  if strTruthyOpt o then o else none

/-- The exported request handler (final variant, lines 194–286): non-POST
acknowledgment, configuration check, signature verification, parse AFTER
verifying, extraction, missing-email acknowledgment, and the outbound push.
`parse` models `JSON.parse` (`none` = throws, caught into the 400 boundary);
`ml` models the outbound `fetch` to the subscriber API. -/
def handler (parse : String → Option JVal)
    (ml : String → Option String → Option String → String → MLResult)
    (env : Env) (req : Req) : Resp × List WebEvent :=
  if req.method ≠ "POST" then (⟨200, .alive⟩, [])
  else if !strTruthyOpt env.secret then (⟨500, .notConfigured⟩, [])
  else if !verifyTallySignature req.rawBody req.sigHeader (env.secret.getD "") then
    (⟨401, .invalidSignature⟩, [])
  else
    match parse req.rawBody with
    | none => (⟨400, .handlerError⟩, [.parseAttempt])
    | some body =>
      let fields := (fieldsOf body).map decodeField
      let email := getEmail fields
      let firstName := getFirstName fields
      let a1 := getArchetype fields
      let archetype := if strTruthyOpt a1 then a1 else computeArchetypeFromScores fields
      if !strTruthyOpt email then
        (⟨200, .missingEmail archetype⟩, [.parseAttempt, .extract])
      else if !strTruthyOpt env.mlApi || !strTruthyOpt env.mlGroup then
        (⟨500, .mlNotConfigured⟩, [.parseAttempt, .extract])
      else
        let e := email.getD ""
        let g := env.mlGroup.getD ""
        let r := ml e (normOpt firstName) (normOpt archetype) g
        if !r.ok then
          (⟨200, .mlError r.status⟩,
           [.parseAttempt, .extract, .outbound e (normOpt firstName) (normOpt archetype) g])
        else
          (⟨200, .okSubscribed e g⟩,
           [.parseAttempt, .extract, .outbound e (normOpt firstName) (normOpt archetype) g])

/-! Helper lemmas: whitespace skipping, captures, trimming, hex digests. -/

/-- `\s*` skips a leading run of whitespace. -/
lemma dropWhile_ws_append {w : List Char} (hw : ∀ c ∈ w, jsWS c = true)
    (r : List Char) : List.dropWhile jsWS (w ++ r) = List.dropWhile jsWS r := by
  induction w with
  | nil => rfl
  | cons c cs ih =>
    rw [List.cons_append, List.dropWhile_cons, if_pos (hw c (List.mem_cons_self c cs))]
    exact ih (fun x hx => hw x (List.mem_cons_of_mem c hx))

/-- `dropWhile` stops at a non-whitespace head. -/
lemma dropWhile_cons_neg {c : Char} (hc : jsWS c = false) (l : List Char) :
    List.dropWhile jsWS (c :: l) = c :: l := by
  rw [List.dropWhile_cons, if_neg]
  simp [hc]

/-- A greedy capture consumes exactly the valid run in front of a stopper. -/
lemma takeWhile_append_stop {p : Char → Bool} {l : List Char}
    (hl : ∀ c ∈ l, p c = true) {d : Char} (hd : p d = false) (r : List Char) :
    List.takeWhile p (l ++ d :: r) = l := by
  induction l with
  | nil =>
    rw [List.nil_append, List.takeWhile_cons, if_neg]
    simp [hd]
  | cons c cs ih =>
    rw [List.cons_append, List.takeWhile_cons, if_pos (hl c (List.mem_cons_self c cs))]
    rw [ih (fun x hx => hl x (List.mem_cons_of_mem c hx))]

/-- A greedy capture of an all-valid list takes everything. -/
lemma takeWhile_all_true {p : Char → Bool} {l : List Char}
    (hl : ∀ c ∈ l, p c = true) : List.takeWhile p l = l := by
  induction l with
  | nil => rfl
  | cons c cs ih =>
    rw [List.takeWhile_cons, if_pos (hl c (List.mem_cons_self c cs))]
    rw [ih (fun x hx => hl x (List.mem_cons_of_mem c hx))]

/-- The comma scan skips over a comma-free prefix. -/
lemma scanKV_skip (eq : Char → Char → Bool) (key : List Char) (valid : Char → Bool)
    {l : List Char} (hl : ∀ c ∈ l, c ≠ ',') (r : List Char) :
    scanKV eq key valid (l ++ r) = scanKV eq key valid r := by
  induction l with
  | nil => rfl
  | cons c cs ih =>
    rw [List.cons_append]
    show scanKV eq key valid (c :: (cs ++ r)) = scanKV eq key valid r
    rw [scanKV, if_neg (hl c (List.mem_cons_self c cs))]
    exact ih (fun x hx => hl x (List.mem_cons_of_mem c hx))

/-- The comma scan of a comma-free subject fails. -/
lemma scanKV_no_comma (eq : Char → Char → Bool) (key : List Char) (valid : Char → Bool)
    {l : List Char} (hl : ∀ c ∈ l, c ≠ ',') :
    scanKV eq key valid l = none := by
  have h := scanKV_skip eq key valid hl []
  rw [List.append_nil] at h
  exact h

/-- A `dropWhile` that preserves length is the identity. -/
lemma dropWhile_eq_self_of_length {p : Char → Bool} {l : List Char}
    (h : (l.dropWhile p).length = l.length) : l.dropWhile p = l :=
  (List.dropWhile_suffix p).eq_of_length h

/-- A fixpoint of `jsTrimL` is untouched by either one-sided trim. -/
lemma jsTrimL_eq_self {l : List Char} (h : jsTrimL l = l) :
    l.dropWhile jsWS = l ∧ l.reverse.dropWhile jsWS = l.reverse := by
  have h1 : ((l.dropWhile jsWS).reverse.dropWhile jsWS).length ≤ (l.dropWhile jsWS).length := by
    calc ((l.dropWhile jsWS).reverse.dropWhile jsWS).length
        ≤ (l.dropWhile jsWS).reverse.length := (List.dropWhile_suffix jsWS).length_le
      _ = (l.dropWhile jsWS).length := List.length_reverse _
  have h2 : (l.dropWhile jsWS).length ≤ l.length := (List.dropWhile_suffix jsWS).length_le
  have hlen : (jsTrimL l).length = l.length := by rw [h]
  have hlen2 : (jsTrimL l).length = ((l.dropWhile jsWS).reverse.dropWhile jsWS).length := by
    simp [jsTrimL]
  have hdw : l.dropWhile jsWS = l := by
    apply dropWhile_eq_self_of_length
    omega
  refine ⟨hdw, ?_⟩
  have h3 : jsTrimL l = (l.reverse.dropWhile jsWS).reverse := by
    rw [jsTrimL, hdw]
  have h4 : (l.reverse.dropWhile jsWS).reverse = l := by rw [← h3, h]
  calc l.reverse.dropWhile jsWS
      = ((l.reverse.dropWhile jsWS).reverse).reverse := (List.reverse_reverse _).symm
    _ = l.reverse := by rw [h4]

/-- `dropWhile` fixes a cons only when the head fails the predicate. -/
lemma dropWhile_cons_self {p : Char → Bool} {c : Char} {l : List Char}
    (h : List.dropWhile p (c :: l) = c :: l) : p c = false := by
  by_contra hc
  have hc' : p c = true := by
    cases hpc : p c with
    | true => rfl
    | false => exact absurd hpc hc
  rw [List.dropWhile_cons, if_pos hc'] at h
  have := (List.dropWhile_suffix p (l := l)).length_le
  have := congrArg List.length h
  simp at this
  omega

/-- Trimming strips whitespace padding around a trim-invariant core. -/
lemma jsTrimL_pad {w1 w2 T : List Char}
    (hw1 : ∀ c ∈ w1, jsWS c = true) (hw2 : ∀ c ∈ w2, jsWS c = true)
    (hT1 : T.dropWhile jsWS = T) (hT2 : T.reverse.dropWhile jsWS = T.reverse)
    (hT0 : T ≠ []) : jsTrimL (w1 ++ T ++ w2) = T := by
  obtain ⟨c, T', rfl⟩ : ∃ c T', T = c :: T' := by
    cases T with
    | nil => exact absurd rfl hT0
    | cons c T' => exact ⟨c, T', rfl⟩
  have hc : jsWS c = false := dropWhile_cons_self hT1
  have step1 : List.dropWhile jsWS (w1 ++ (c :: T') ++ w2) = (c :: T') ++ w2 := by
    rw [List.append_assoc, dropWhile_ws_append hw1]
    exact dropWhile_cons_neg hc (T' ++ w2)
  rw [jsTrimL, step1]
  rw [List.reverse_append]
  rw [dropWhile_ws_append (fun x hx => hw2 x (List.mem_reverse.mp hx))]
  rw [hT2, List.reverse_reverse]

/-- Trimming does nothing to an entirely non-whitespace list. -/
lemma jsTrimL_no_ws {l : List Char} (h : ∀ c ∈ l, jsWS c = false) :
    jsTrimL l = l := by
  have hdw : ∀ {m : List Char}, (∀ c ∈ m, jsWS c = false) → List.dropWhile jsWS m = m := by
    intro m hm
    cases m with
    | nil => rfl
    | cons c l' => exact dropWhile_cons_neg (hm c (List.mem_cons_self c l')) l'
  rw [jsTrimL, hdw h, hdw (fun c hc => h c (List.mem_reverse.mp hc)), List.reverse_reverse]

/-- Indexing the hex alphabet always lands in the hex alphabet. -/
lemma getD_hexChars16_mem (i : Nat) : hexChars16.getD i '0' ∈ hexChars16 := by
  rcases Nat.lt_or_ge i 16 with h | h
  · interval_cases i <;> decide
  · have hlen : hexChars16.length ≤ i := by
      have h16 : hexChars16.length = 16 := by decide
      omega
    rw [List.getD_eq_default _ _ hlen]
    decide

/-- Both digits of a byte's hex rendering are hex characters. -/
lemma mem_byteHex {c : Char} {b : Nat} (h : c ∈ byteHex b) : c ∈ hexChars16 := by
  simp only [byteHex, List.mem_cons, List.not_mem_nil, or_false] at h
  rcases h with h | h <;> (subst h; exact getD_hexChars16_mem _)

/-- Every character of a hex digest is a hex character. -/
lemma mem_bytesToHexChars {c : Char} {bs : List Nat}
    (h : c ∈ bytesToHexChars bs) : c ∈ hexChars16 := by
  induction bs with
  | nil => simp [bytesToHexChars] at h
  | cons b bs ih =>
    have hb : bytesToHexChars (b :: bs) = byteHex b ++ bytesToHexChars bs := rfl
    rw [hb, List.mem_append] at h
    rcases h with h | h
    · exact mem_byteHex h
    · exact ih h

/-- The sixteen hex characters are in `[a-f0-9]` (case-insensitively), are not
whitespace, and are not commas. -/
lemma hexChars16_props :
    ∀ c ∈ hexChars16, hexDigitCI c = true ∧ jsWS c = false ∧ c ≠ ',' := by
  decide

/-- A hex digest has two characters per byte. -/
lemma length_bytesToHexChars (bs : List Nat) :
    (bytesToHexChars bs).length = 2 * bs.length := by
  induction bs with
  | nil => rfl
  | cons b bs ih =>
    have hb : bytesToHexChars (b :: bs) = byteHex b ++ bytesToHexChars bs := rfl
    rw [hb, List.length_append, ih]
    simp [byteHex]
    omega

/-- SHA-256 digests are 32 bytes long. -/
lemma sha256_length (m : List Nat) : (sha256 m).length = 32 := by
  simp [sha256, be32Bytes]

/-- HMAC-SHA256 digests are 32 bytes long. -/
lemma hmacSha256_length (k m : List Nat) : (hmacSha256 k m).length = 32 := by
  show (sha256 _).length = 32
  exact sha256_length _

/-- The character list underlying an HMAC hex digest. -/
lemma hmacHex_data (S msg : String) :
    (hmacSha256Hex S msg).data = bytesToHexChars (hmacSha256 (utf8 S) (utf8 msg)) := rfl

/-- An HMAC hex digest has 64 characters. -/
lemma hmacHex_length (S msg : String) : (hmacSha256Hex S msg).data.length = 64 := by
  rw [hmacHex_data, length_bytesToHexChars, hmacSha256_length]

/-- Every character of an HMAC hex digest is a hex character. -/
lemma hmacHex_mem {S msg : String} {c : Char}
    (h : c ∈ (hmacSha256Hex S msg).data) : c ∈ hexChars16 := by
  rw [hmacHex_data] at h
  exact mem_bytesToHexChars h

/-- An HMAC hex digest is non-empty. -/
lemma hmacHex_ne_nil (S msg : String) : (hmacSha256Hex S msg).data ≠ [] := by
  intro e
  have := hmacHex_length S msg
  rw [e] at this
  simp at this

/-- Whitespace characters are never commas. -/
lemma ws_ne_comma {c : Char} (h : jsWS c = true) : c ≠ ',' := by
  intro e
  subst e
  exact absurd h (by decide)

/-- Stripping the `t=` key. -/
lemma stripKeyBy_t (r : List Char) :
    stripKeyBy charEq ['t', '='] ('t' :: '=' :: r) = some r := rfl

/-- Stripping the `v1=` key (case-insensitively). -/
lemma stripKeyBy_v (r : List Char) :
    stripKeyBy charCI ['v', '1', '='] ('v' :: '1' :: '=' :: r) = some r := rfl

/-- The `v1=` key does not match at a `t`. -/
lemma stripKeyBy_vt (r : List Char) :
    stripKeyBy charCI ['v', '1', '='] ('t' :: r) = none := rfl

/-- The `t=` key does not match at a `v`. -/
lemma stripKeyBy_tv (r : List Char) :
    stripKeyBy charEq ['t', '='] ('v' :: r) = none := rfl

/-- Acceptance of a well-formed signature header, with arbitrary whitespace
padding at the tolerated spots: before the `t=` key (`w0`), around the
timestamp value (`w1`, `w2`), and between the comma and the `v1=` key (`w3`).
The timestamp `T` must be non-empty, comma-free and trim-invariant, and `H` is
the hex HMAC of `T + "." + B` under secret `S`. -/
lemma verifyCore_accepts (S B : String) (T w0 w1 w2 w3 H : List Char)
    (hH : H = (hmacSha256Hex S (String.mk T ++ "." ++ B)).data)
    (hT0 : T ≠ []) (hTc : ∀ c ∈ T, c ≠ ',')
    (hT1 : T.dropWhile jsWS = T) (hT2 : T.reverse.dropWhile jsWS = T.reverse)
    (hw0 : ∀ c ∈ w0, jsWS c = true) (hw1 : ∀ c ∈ w1, jsWS c = true)
    (hw2 : ∀ c ∈ w2, jsWS c = true) (hw3 : ∀ c ∈ w3, jsWS c = true) :
    verifyCore B
      (w0 ++ 't' :: '=' :: ((w1 ++ T ++ w2) ++ ',' ::
        (w3 ++ 'v' :: '1' :: '=' :: H))) S = true := by
  have hHhex : ∀ c ∈ H, c ∈ hexChars16 := by
    intro c hc
    rw [hH] at hc
    exact hmacHex_mem hc
  have hHne : H ≠ [] := by
    rw [hH]
    exact hmacHex_ne_nil _ _
  have hcapNe : ∀ c ∈ w1 ++ T ++ w2, (c != ',') = true := by
    intro c hc
    rw [bne_iff_ne]
    rcases List.mem_append.mp hc with hc | hc
    · rcases List.mem_append.mp hc with hc | hc
      · exact ws_ne_comma (hw1 c hc)
      · exact hTc c hc
    · exact ws_ne_comma (hw2 c hc)
  have hcap0 : w1 ++ T ++ w2 ≠ [] := by
    intro e
    simp only [List.append_eq_nil] at e
    exact hT0 e.1.2
  have hdw : List.dropWhile jsWS
      (w0 ++ 't' :: '=' :: ((w1 ++ T ++ w2) ++ ',' :: (w3 ++ 'v' :: '1' :: '=' :: H)))
      = 't' :: '=' :: ((w1 ++ T ++ w2) ++ ',' :: (w3 ++ 'v' :: '1' :: '=' :: H)) := by
    rw [dropWhile_ws_append hw0]
    exact dropWhile_cons_neg (by decide) _
  have hTW : List.takeWhile (fun c => c != ',')
      ((w1 ++ T ++ w2) ++ ',' :: (w3 ++ 'v' :: '1' :: '=' :: H)) = w1 ++ T ++ w2 :=
    takeWhile_append_stop hcapNe (by decide) _
  have htK : tryKeyAt charEq ['t', '='] (fun c => c != ',')
      (w0 ++ 't' :: '=' :: ((w1 ++ T ++ w2) ++ ',' :: (w3 ++ 'v' :: '1' :: '=' :: H)))
      = some (w1 ++ T ++ w2) := by
    unfold tryKeyAt
    rw [hdw, stripKeyBy_t]
    simp only [hTW]
    rw [if_neg hcap0]
  have htM : tMatch
      (w0 ++ 't' :: '=' :: ((w1 ++ T ++ w2) ++ ',' :: (w3 ++ 'v' :: '1' :: '=' :: H)))
      = some (w1 ++ T ++ w2) := by
    unfold tMatch execKV
    rw [htK]
  have hHvalid : ∀ c ∈ H, hexDigitCI c = true := by
    intro c hc
    exact (hexChars16_props c (hHhex c hc)).1
  have hvK0 : tryKeyAt charCI ['v', '1', '='] hexDigitCI
      (w0 ++ 't' :: '=' :: ((w1 ++ T ++ w2) ++ ',' :: (w3 ++ 'v' :: '1' :: '=' :: H)))
      = none := by
    unfold tryKeyAt
    rw [hdw, stripKeyBy_vt]
  have hvT : tryKeyAt charCI ['v', '1', '='] hexDigitCI
      (w3 ++ 'v' :: '1' :: '=' :: H) = some H := by
    unfold tryKeyAt
    rw [dropWhile_ws_append hw3, dropWhile_cons_neg (by decide), stripKeyBy_v]
    simp only [takeWhile_all_true hHvalid]
    rw [if_neg hHne]
  have hfront : ∀ c ∈ w0 ++ 't' :: '=' :: (w1 ++ T ++ w2), c ≠ ',' := by
    intro c hc
    rcases List.mem_append.mp hc with hc | hc
    · exact ws_ne_comma (hw0 c hc)
    · rcases List.mem_cons.mp hc with hc | hc
      · subst hc; decide
      · rcases List.mem_cons.mp hc with hc | hc
        · subst hc; decide
        · exact bne_iff_ne.mp (hcapNe c hc)
  have hassoc :
      (w0 ++ 't' :: '=' :: ((w1 ++ T ++ w2) ++ ',' :: (w3 ++ 'v' :: '1' :: '=' :: H)))
      = (w0 ++ 't' :: '=' :: (w1 ++ T ++ w2)) ++ ',' :: (w3 ++ 'v' :: '1' :: '=' :: H) := by
    simp [List.append_assoc]
  have hscan : scanKV charCI ['v', '1', '='] hexDigitCI
      (w0 ++ 't' :: '=' :: ((w1 ++ T ++ w2) ++ ',' :: (w3 ++ 'v' :: '1' :: '=' :: H)))
      = some H := by
    rw [hassoc, scanKV_skip _ _ _ hfront]
    rw [scanKV, if_pos rfl, hvT]
  have hvM : vMatch
      (w0 ++ 't' :: '=' :: ((w1 ++ T ++ w2) ++ ',' :: (w3 ++ 'v' :: '1' :: '=' :: H)))
      = some H := by
    unfold vMatch execKV
    rw [hvK0, hscan]
  have htrimCap : jsTrimL (w1 ++ T ++ w2) = T := jsTrimL_pad hw1 hw2 hT1 hT2 hT0
  have htrimH : jsTrimL H = H :=
    jsTrimL_no_ws (fun c hc => (hexChars16_props c (hHhex c hc)).2.1)
  unfold verifyCore
  rw [htM, hvM]
  simp only [htrimCap, htrimH, ← hH]
  simp [timingSafeEqual]

/-- `verifyTallySignature` accepts a well-formed header with whitespace padding
at the tolerated spots. -/
lemma verify_accepts_padded (S B : String) (T w0 w1 w2 w3 H : List Char)
    (hH : H = (hmacSha256Hex S (String.mk T ++ "." ++ B)).data)
    (hT0 : T ≠ []) (hTc : ∀ c ∈ T, c ≠ ',')
    (hT1 : T.dropWhile jsWS = T) (hT2 : T.reverse.dropWhile jsWS = T.reverse)
    (hw0 : ∀ c ∈ w0, jsWS c = true) (hw1 : ∀ c ∈ w1, jsWS c = true)
    (hw2 : ∀ c ∈ w2, jsWS c = true) (hw3 : ∀ c ∈ w3, jsWS c = true) :
    verifyTallySignature B
      (some (String.mk (w0 ++ 't' :: '=' :: ((w1 ++ T ++ w2) ++ ',' ::
        (w3 ++ 'v' :: '1' :: '=' :: H))))) S = true := by
  have hne : String.mk (w0 ++ 't' :: '=' :: ((w1 ++ T ++ w2) ++ ',' ::
      (w3 ++ 'v' :: '1' :: '=' :: H))) ≠ "" := by
    intro e
    have e2 : (w0 ++ 't' :: '=' :: ((w1 ++ T ++ w2) ++ ',' ::
        (w3 ++ 'v' :: '1' :: '=' :: H))) = [] := congrArg String.data e
    simp [List.append_eq_nil] at e2
  show (if String.mk (w0 ++ 't' :: '=' :: ((w1 ++ T ++ w2) ++ ',' ::
      (w3 ++ 'v' :: '1' :: '=' :: H))) = "" then false
    else verifyCore B (w0 ++ 't' :: '=' :: ((w1 ++ T ++ w2) ++ ',' ::
      (w3 ++ 'v' :: '1' :: '=' :: H))) S) = true
  rw [if_neg hne]
  exact verifyCore_accepts S B T w0 w1 w2 w3 H hH hT0 hTc hT1 hT2 hw0 hw1 hw2 hw3

/-- Round-trip acceptance at the string level: for a non-empty, comma-free,
trim-invariant timestamp `T`, any body `B` and any secret `S`, the header
`t=T,v1=hex(HMAC-SHA256(S, T + "." + B))` verifies. -/
lemma verify_roundtrip (T B S : String) (h1 : T ≠ "") (h2 : ',' ∉ T.data)
    (h3 : jsTrim T = T) :
    verifyTallySignature B
      (some ("t=" ++ T ++ ",v1=" ++ hmacSha256Hex S (T ++ "." ++ B))) S = true := by
  have hT0 : T.data ≠ [] := by
    intro e
    apply h1
    have hT : T = String.mk T.data := rfl
    rw [hT, e]
  have hTc : ∀ c ∈ T.data, c ≠ ',' := fun c hc e => h2 (e ▸ hc)
  have htr : jsTrimL T.data = T.data := by
    have h4 := congrArg String.data h3
    simpa [jsTrim] using h4
  obtain ⟨hT1, hT2⟩ := jsTrimL_eq_self htr
  have d1 : ("t=" : String).data = ['t', '='] := rfl
  have d2 : (",v1=" : String).data = [',', 'v', '1', '='] := rfl
  have hdata : ("t=" ++ T ++ ",v1=" ++ hmacSha256Hex S (T ++ "." ++ B)).data
      = ([] ++ 't' :: '=' :: (([] ++ T.data ++ []) ++ ',' ::
          ([] ++ 'v' :: '1' :: '=' :: (hmacSha256Hex S (T ++ "." ++ B)).data))) := by
    rw [String.data_append, String.data_append, String.data_append, d1, d2]
    simp
  have hdr_eq : ("t=" ++ T ++ ",v1=" ++ hmacSha256Hex S (T ++ "." ++ B))
      = String.mk ([] ++ 't' :: '=' :: (([] ++ T.data ++ []) ++ ',' ::
          ([] ++ 'v' :: '1' :: '=' :: (hmacSha256Hex S (T ++ "." ++ B)).data))) :=
    congrArg String.mk hdata
  rw [hdr_eq]
  exact verify_accepts_padded S B T.data [] [] [] []
    ((hmacSha256Hex S (T ++ "." ++ B)).data) rfl hT0 hTc hT1 hT2
    (by simp) (by simp) (by simp) (by simp)

/-- C1: the claim quantifies over EVERY timestamp string `T`, but the parser's
capture `t=([^,]+)` cannot produce an empty timestamp: at `T = ""` the header
`"t=" + T + ",v1=" + hex(HMAC-SHA256(S, T + "." + B))` is rejected, so the
claim as stated is false (comma-containing or whitespace-padded `T` fail
likewise). -/
theorem tally_C1_counterexample :
    verifyTallySignature ""
      (some ("t=" ++ "" ++ ",v1=" ++ hmacSha256Hex "k" ("" ++ "." ++ ""))) "k"
      = false := by
  have d1 : ("t=" : String).data = ['t', '='] := rfl
  have d2 : (",v1=" : String).data = [',', 'v', '1', '='] := rfl
  have hdata : ("t=" ++ "" ++ ",v1=" ++ hmacSha256Hex "k" ("" ++ "." ++ "")).data
      = 't' :: '=' :: ',' :: 'v' :: '1' :: '='
        :: (hmacSha256Hex "k" ("" ++ "." ++ "")).data := by
    rw [String.data_append, String.data_append, String.data_append, d1, d2]
    simp
  have hne : ("t=" ++ "" ++ ",v1=" ++ hmacSha256Hex "k" ("" ++ "." ++ "")) ≠ "" := by
    intro e
    have e2 := congrArg String.data e
    rw [hdata] at e2
    exact List.noConfusion e2
  have hXcomma : ∀ c ∈ 'v' :: '1' :: '=' :: (hmacSha256Hex "k" ("" ++ "." ++ "")).data,
      c ≠ ',' := by
    intro c hc
    rcases List.mem_cons.mp hc with hc | hc
    · subst hc; decide
    rcases List.mem_cons.mp hc with hc | hc
    · subst hc; decide
    rcases List.mem_cons.mp hc with hc | hc
    · subst hc; decide
    · exact (hexChars16_props c (hmacHex_mem hc)).2.2
  have htK : tryKeyAt charEq ['t', '='] (fun c => c != ',')
      ('t' :: '=' :: ',' :: 'v' :: '1' :: '='
        :: (hmacSha256Hex "k" ("" ++ "." ++ "")).data) = none := by
    unfold tryKeyAt
    rw [dropWhile_cons_neg (by decide), stripKeyBy_t]
    have hTW : List.takeWhile (fun c => c != ',')
        (',' :: 'v' :: '1' :: '=' :: (hmacSha256Hex "k" ("" ++ "." ++ "")).data) = [] := by
      rw [List.takeWhile_cons, if_neg]
      decide
    simp [hTW]
  have htK2 : tryKeyAt charEq ['t', '='] (fun c => c != ',')
      ('v' :: '1' :: '=' :: (hmacSha256Hex "k" ("" ++ "." ++ "")).data) = none := by
    unfold tryKeyAt
    rw [dropWhile_cons_neg (by decide), stripKeyBy_tv]
  have hscan : scanKV charEq ['t', '='] (fun c => c != ',')
      ('t' :: '=' :: ',' :: 'v' :: '1' :: '='
        :: (hmacSha256Hex "k" ("" ++ "." ++ "")).data) = none := by
    have hsplit : ('t' :: '=' :: ',' :: 'v' :: '1' :: '='
        :: (hmacSha256Hex "k" ("" ++ "." ++ "")).data)
        = ['t', '='] ++ (',' :: 'v' :: '1' :: '='
          :: (hmacSha256Hex "k" ("" ++ "." ++ "")).data) := rfl
    rw [hsplit, scanKV_skip _ _ _ (by intro c hc; fin_cases hc <;> decide)]
    rw [scanKV, if_pos rfl, htK2]
    exact scanKV_no_comma _ _ _ hXcomma
  have htM : tMatch ('t' :: '=' :: ',' :: 'v' :: '1' :: '='
      :: (hmacSha256Hex "k" ("" ++ "." ++ "")).data) = none := by
    unfold tMatch execKV
    rw [htK, hscan]
  show (if ("t=" ++ "" ++ ",v1=" ++ hmacSha256Hex "k" ("" ++ "." ++ "")) = ""
      then false
      else verifyCore ""
        ("t=" ++ "" ++ ",v1=" ++ hmacSha256Hex "k" ("" ++ "." ++ "")).data "k") = false
  rw [if_neg hne, hdata]
  unfold verifyCore
  rw [htM]

/-- C1 (amended): `verifyTallySignature` is a pure function of
`(rawBody, header, secret)` — determinism is by construction — and for every
timestamp `T` that is non-empty, comma-free and has no surrounding whitespace
(the shapes the `t=([^,]+)`/trim parser can actually produce), every raw body
`B` and every secret `S`, the header
`t=T,v1=hex(HMAC-SHA256(S, T + "." + B))` verifies to `true`. -/
theorem tally_C1_verify_roundtrip (T B S : String) (h1 : T ≠ "")
    (h2 : ',' ∉ T.data) (h3 : jsTrim T = T) :
    verifyTallySignature B
      (some ("t=" ++ T ++ ",v1=" ++ hmacSha256Hex S (T ++ "." ++ B))) S = true :=
  verify_roundtrip T B S h1 h2 h3

/-- C1 witness: the amended round-trip at `T = "1"`, `B = "x"`, `S = "k"`. -/
theorem tally_C1_witness :
    verifyTallySignature "x"
      (some ("t=" ++ "1" ++ ",v1=" ++ hmacSha256Hex "k" ("1" ++ "." ++ "x"))) "k"
      = true :=
  tally_C1_verify_roundtrip "1" "x" "k" (by decide) (by decide) (by decide)

/-- C5: the claim is false as stated — whitespace is NOT tolerated everywhere
around the separators. Inserting a single space after the `=` of `v1=` into a
valid header (`t=1,v1= <hex>` instead of `t=1,v1=<hex>`) flips the result from
`true` to `false`, because the capture `([a-f0-9]+)` must start immediately
after `v1=`. -/
theorem tally_C5_counterexample :
    verifyTallySignature "x"
      (some ("t=" ++ "1" ++ ",v1=" ++ hmacSha256Hex "k" ("1" ++ "." ++ "x"))) "k"
      = true ∧
    verifyTallySignature "x"
      (some ("t=" ++ "1" ++ ",v1= " ++ hmacSha256Hex "k" ("1" ++ "." ++ "x"))) "k"
      = false := by
  refine ⟨verify_roundtrip "1" "x" "k" (by decide) (by decide) (by decide), ?_⟩
  have d1 : ("t=" : String).data = ['t', '='] := rfl
  have d2 : ("1" : String).data = ['1'] := rfl
  have d3 : (",v1= " : String).data = [',', 'v', '1', '=', ' '] := rfl
  have hdata : ("t=" ++ "1" ++ ",v1= " ++ hmacSha256Hex "k" ("1" ++ "." ++ "x")).data
      = 't' :: '=' :: '1' :: ',' :: 'v' :: '1' :: '=' :: ' '
        :: (hmacSha256Hex "k" ("1" ++ "." ++ "x")).data := by
    rw [String.data_append, String.data_append, String.data_append, d1, d2, d3]
    simp
  have hne : ("t=" ++ "1" ++ ",v1= " ++ hmacSha256Hex "k" ("1" ++ "." ++ "x")) ≠ "" := by
    intro e
    have e2 := congrArg String.data e
    rw [hdata] at e2
    exact List.noConfusion e2
  have htK : tryKeyAt charEq ['t', '='] (fun c => c != ',')
      ('t' :: '=' :: '1' :: ',' :: 'v' :: '1' :: '=' :: ' '
        :: (hmacSha256Hex "k" ("1" ++ "." ++ "x")).data) = some ['1'] := by
    unfold tryKeyAt
    rw [dropWhile_cons_neg (by decide), stripKeyBy_t]
    have hTW : List.takeWhile (fun c => c != ',')
        ('1' :: ',' :: 'v' :: '1' :: '=' :: ' '
          :: (hmacSha256Hex "k" ("1" ++ "." ++ "x")).data) = ['1'] := by
      rw [List.takeWhile_cons, if_pos (by decide), List.takeWhile_cons, if_neg (by decide)]
    simp [hTW]
  have htM : tMatch ('t' :: '=' :: '1' :: ',' :: 'v' :: '1' :: '=' :: ' '
      :: (hmacSha256Hex "k" ("1" ++ "." ++ "x")).data) = some ['1'] := by
    unfold tMatch execKV
    rw [htK]
  have hvK0 : tryKeyAt charCI ['v', '1', '='] hexDigitCI
      ('t' :: '=' :: '1' :: ',' :: 'v' :: '1' :: '=' :: ' '
        :: (hmacSha256Hex "k" ("1" ++ "." ++ "x")).data) = none := by
    unfold tryKeyAt
    rw [dropWhile_cons_neg (by decide), stripKeyBy_vt]
  have hvK1 : tryKeyAt charCI ['v', '1', '='] hexDigitCI
      ('v' :: '1' :: '=' :: ' '
        :: (hmacSha256Hex "k" ("1" ++ "." ++ "x")).data) = none := by
    unfold tryKeyAt
    rw [dropWhile_cons_neg (by decide), stripKeyBy_v]
    have hTW : List.takeWhile hexDigitCI
        (' ' :: (hmacSha256Hex "k" ("1" ++ "." ++ "x")).data) = [] := by
      rw [List.takeWhile_cons, if_neg (by decide)]
    simp only [hTW]
    simp
  have hXcomma : ∀ c ∈ 'v' :: '1' :: '=' :: ' '
      :: (hmacSha256Hex "k" ("1" ++ "." ++ "x")).data, c ≠ ',' := by
    intro c hc
    rcases List.mem_cons.mp hc with hc | hc
    · subst hc; decide
    rcases List.mem_cons.mp hc with hc | hc
    · subst hc; decide
    rcases List.mem_cons.mp hc with hc | hc
    · subst hc; decide
    rcases List.mem_cons.mp hc with hc | hc
    · subst hc; decide
    · exact (hexChars16_props c (hmacHex_mem hc)).2.2
  have hscan : scanKV charCI ['v', '1', '='] hexDigitCI
      ('t' :: '=' :: '1' :: ',' :: 'v' :: '1' :: '=' :: ' '
        :: (hmacSha256Hex "k" ("1" ++ "." ++ "x")).data) = none := by
    have hsplit : ('t' :: '=' :: '1' :: ',' :: 'v' :: '1' :: '=' :: ' '
        :: (hmacSha256Hex "k" ("1" ++ "." ++ "x")).data)
        = ['t', '=', '1'] ++ (',' :: 'v' :: '1' :: '=' :: ' '
          :: (hmacSha256Hex "k" ("1" ++ "." ++ "x")).data) := rfl
    rw [hsplit, scanKV_skip _ _ _ (by intro c hc; fin_cases hc <;> decide)]
    rw [scanKV, if_pos rfl, hvK1]
    exact scanKV_no_comma _ _ _ hXcomma
  have hvM : vMatch ('t' :: '=' :: '1' :: ',' :: 'v' :: '1' :: '=' :: ' '
      :: (hmacSha256Hex "k" ("1" ++ "." ++ "x")).data) = none := by
    unfold vMatch execKV
    rw [hvK0, hscan]
  show (if ("t=" ++ "1" ++ ",v1= " ++ hmacSha256Hex "k" ("1" ++ "." ++ "x")) = ""
      then false
      else verifyCore "x"
        ("t=" ++ "1" ++ ",v1= " ++ hmacSha256Hex "k" ("1" ++ "." ++ "x")).data "k")
      = false
  rw [if_neg hne, hdata]
  unfold verifyCore
  rw [htM, hvM]

/-- C5 (amended): whitespace around the separators is tolerated exactly at
these spots — before the `t=` key, around the captured timestamp value (i.e.
after `t=` and before the comma; the capture is trimmed), and between the
comma and the `v1=` key. There the result is unchanged. It is NOT tolerated
between a key name and its `=`, nor between `v1=` and the hex value (see the
counterexample). -/
theorem tally_C5_ws_tolerant (T B S : String) (w0 w1 w2 w3 : List Char)
    (h1 : T ≠ "") (h2 : ',' ∉ T.data) (h3 : jsTrim T = T)
    (hw0 : ∀ c ∈ w0, jsWS c = true) (hw1 : ∀ c ∈ w1, jsWS c = true)
    (hw2 : ∀ c ∈ w2, jsWS c = true) (hw3 : ∀ c ∈ w3, jsWS c = true) :
    verifyTallySignature B
      (some (String.mk (w0 ++ 't' :: '=' :: ((w1 ++ T.data ++ w2) ++ ',' ::
        (w3 ++ 'v' :: '1' :: '='
          :: (hmacSha256Hex S (T ++ "." ++ B)).data))))) S
      = verifyTallySignature B
          (some ("t=" ++ T ++ ",v1=" ++ hmacSha256Hex S (T ++ "." ++ B))) S := by
  rw [verify_roundtrip T B S h1 h2 h3]
  have hT0 : T.data ≠ [] := by
    intro e
    apply h1
    have hT : T = String.mk T.data := rfl
    rw [hT, e]
  have hTc : ∀ c ∈ T.data, c ≠ ',' := fun c hc e => h2 (e ▸ hc)
  have htr : jsTrimL T.data = T.data := by
    have h4 := congrArg String.data h3
    simpa [jsTrim] using h4
  obtain ⟨hT1, hT2⟩ := jsTrimL_eq_self htr
  exact verify_accepts_padded S B T.data w0 w1 w2 w3
    ((hmacSha256Hex S (T ++ "." ++ B)).data) rfl hT0 hTc hT1 hT2 hw0 hw1 hw2 hw3

/-- C5 witness: one space of padding at each tolerated spot, at `T = "1"`,
`B = "x"`, `S = "k"`. -/
theorem tally_C5_witness :
    verifyTallySignature "x"
      (some (String.mk ([' '] ++ 't' :: '=' :: (([' '] ++ ("1" : String).data ++ [' ']) ++ ',' ::
        ([' '] ++ 'v' :: '1' :: '='
          :: (hmacSha256Hex "k" ("1" ++ "." ++ "x")).data))))) "k"
      = verifyTallySignature "x"
          (some ("t=" ++ "1" ++ ",v1=" ++ hmacSha256Hex "k" ("1" ++ "." ++ "x"))) "k" :=
  tally_C5_ws_tolerant "1" "x" "k" [' '] [' '] [' '] [' ']
    (by decide) (by decide) (by decide)
    (by decide) (by decide) (by decide) (by decide)

/-- C3: whenever the header parses (captures `tc` for `t` and `vc` for `v1`),
the verifier's result is exactly the byte-level comparison of the hex-DECODED
`v1` value against the hex-decoded expected HMAC: `false` whenever the decoded
byte sequences have different lengths (`timingSafeEqual`'s throw is caught,
never propagated), and byte-sequence equality — not string equality — when the
lengths agree. Constant-time execution itself is a timing property with no
observable counterpart in this functional model; what is verified is the
comparison's value semantics on decoded bytes. -/
theorem tally_C3_decoded_compare (raw secret hs : String) (tc vc : List Char)
    (ht : tMatch hs.data = some tc) (hv : vMatch hs.data = some vc) :
    verifyTallySignature raw (some hs) secret =
      (if (nodeHexDecode (jsTrimL vc)).length
          = (nodeHexDecode
              (hmacSha256Hex secret (String.mk (jsTrimL tc) ++ "." ++ raw)).data).length
       then decide (nodeHexDecode (jsTrimL vc)
          = nodeHexDecode
              (hmacSha256Hex secret (String.mk (jsTrimL tc) ++ "." ++ raw)).data)
       else false) := by
  have hne : hs ≠ "" := by
    intro e
    rw [e] at ht
    have h0 : tMatch ("" : String).data = none := rfl
    rw [h0] at ht
    exact Option.noConfusion ht
  show (if hs = "" then false else verifyCore raw hs.data secret) = _
  rw [if_neg hne]
  unfold verifyCore
  rw [ht, hv]
  simp only [timingSafeEqual]
  by_cases hL : (nodeHexDecode (jsTrimL vc)).length
      = (nodeHexDecode
          (hmacSha256Hex secret (String.mk (jsTrimL tc) ++ "." ++ raw)).data).length
  · rw [if_pos hL, if_pos hL]
  · rw [if_neg hL, if_neg hL]

/-- C3 witness: at header `t=1,v1=ab` the captures are `1` and `ab`, and the
verifier equals the decoded-byte comparison (here a length mismatch: one byte
against thirty-two). -/
theorem tally_C3_witness :
    verifyTallySignature "x" (some "t=1,v1=ab") "k" =
      (if (nodeHexDecode (jsTrimL ['a', 'b'])).length
          = (nodeHexDecode
              (hmacSha256Hex "k" (String.mk (jsTrimL ['1']) ++ "." ++ "x")).data).length
       then decide (nodeHexDecode (jsTrimL ['a', 'b'])
          = nodeHexDecode
              (hmacSha256Hex "k" (String.mk (jsTrimL ['1']) ++ "." ++ "x")).data)
       else false) :=
  tally_C3_decoded_compare "x" "k" "t=1,v1=ab" ['1'] ['a', 'b'] (by decide) (by decide)

/-- C4: the verifier fails closed — it returns `false` for an absent header,
for an empty header, and for any header string on which the `t=` capture or
the `v1=` capture fails (e.g. `"garbage"`); it never returns `true` for such
headers. -/
theorem tally_C4_fails_closed (b s hs : String)
    (hbad : tMatch hs.data = none ∨ vMatch hs.data = none) :
    verifyTallySignature b none s = false ∧
    verifyTallySignature b (some "") s = false ∧
    verifyTallySignature b (some hs) s = false := by
  refine ⟨rfl, rfl, ?_⟩
  by_cases he : hs = ""
  · rw [he]
    rfl
  · show (if hs = "" then false else verifyCore b hs.data s) = false
    rw [if_neg he]
    unfold verifyCore
    rcases hbad with hb | hb
    · rw [hb]
    · cases htm : tMatch hs.data with
      | none => rfl
      | some tc => rw [hb]

/-- C4 witness: the fails-closed cases at body `x`, secret `k` and the header
`"garbage"` (which has no `t=` component). -/
theorem tally_C4_witness :
    verifyTallySignature "x" none "k" = false ∧
    verifyTallySignature "x" (some "") "k" = false ∧
    verifyTallySignature "x" (some "garbage") "k" = false :=
  tally_C4_fails_closed "x" "k" "garbage" (Or.inl (by decide))

/-! Lemmas relating the scoring loop to its argmax description. -/

/-- One loop step from the empty state: a qualifying field becomes the best. -/
lemma scoreStep_none (f : FormField) :
    scoreStep none f
      = if qualifies f then some (lowerStr (labelStr f), getVQ f) else none := by
  unfold scoreStep qualifies getVQ
  cases hv : f.value with
  | none => simp
  | some w =>
    cases w with
    | str s => simp
    | num q =>
      simp only []
      rw [Bool.true_and]

/-- One loop step from a non-empty state is a merge with the step from the
empty state. -/
lemma scoreStep_some (k : String) (v : ℚ) (f : FormField) :
    scoreStep (some (k, v)) f = combinePair (some (k, v)) (scoreStep none f) := by
  unfold scoreStep
  cases hv : f.value with
  | none => rfl
  | some w =>
    cases w with
    | str s => rfl
    | num q =>
      by_cases hc : (f.type == some "CALCULATED_FIELDS"
          && (List.lookup (lowerStr (labelStr f)) scoreMap).isSome) = true
      · simp [hc, combinePair]
      · simp [hc, combinePair]

/-- `combinePair` is associative. -/
lemma combinePair_assoc (x y z : Option (String × ℚ)) :
    combinePair (combinePair x y) z = combinePair x (combinePair y z) := by
  rcases x with _ | ⟨k, a⟩
  · rfl
  rcases y with _ | ⟨l, b⟩
  · rfl
  rcases z with _ | ⟨m, c⟩
  · by_cases hab : a < b <;> simp [combinePair, hab]
  by_cases hab : a < b
  · by_cases hbc : b < c
    · have hac : a < c := lt_trans hab hbc
      simp [combinePair, hab, hbc, hac]
    · simp [combinePair, hab, hbc]
  · by_cases hbc : b < c
    · simp [combinePair, hab, hbc]
    · have hac : ¬ a < c := not_lt.mpr ((not_lt.mp hbc).trans (not_lt.mp hab))
      simp [combinePair, hab, hbc, hac]

/-- The scoring loop from any accumulator is a merge with the loop from the
empty accumulator. -/
lemma foldl_scoreStep (fs : List FormField) :
    ∀ acc, fs.foldl scoreStep acc = combinePair acc (bestPair fs) := by
  induction fs with
  | nil =>
    intro acc
    cases acc <;> rfl
  | cons f fs ih =>
    intro acc
    have hbp : bestPair (f :: fs) = combinePair (scoreStep none f) (bestPair fs) := by
      show List.foldl scoreStep (scoreStep none f) fs = _
      exact ih (scoreStep none f)
    rw [List.foldl_cons, ih (scoreStep acc f), hbp]
    cases acc with
    | none => rfl
    | some p =>
      rcases p with ⟨k, v⟩
      rw [scoreStep_some k v f, combinePair_assoc]

/-- The maximum of a list is attained by one of its elements. -/
lemma listMaxQ_mem : ∀ {l : List ℚ} (m : ℚ), listMaxQ l = some m → m ∈ l := by
  intro l
  induction l with
  | nil =>
    intro m h
    exact Option.noConfusion h
  | cons v vs ih =>
    intro m h
    rw [listMaxQ] at h
    have h2 := Option.some.inj h
    cases hvs : listMaxQ vs with
    | none =>
      rw [hvs] at h2
      simp only at h2
      rw [← h2]
      exact List.mem_cons_self v vs
    | some w =>
      rw [hvs] at h2
      simp only at h2
      rcases max_choice v w with hm | hm
      · rw [hm] at h2
        rw [← h2]
        exact List.mem_cons_self v vs
      · rw [hm] at h2
        rw [← h2]
        exact List.mem_cons_of_mem v (ih w hvs)

/-- Only the empty list has no maximum. -/
lemma listMaxQ_none {l : List ℚ} (h : listMaxQ l = none) : l = [] := by
  cases l with
  | nil => rfl
  | cons v vs => exact Option.noConfusion h

/-- The argmax description satisfies the same one-step recurrence as the
scoring loop. -/
lemma specScorePair_cons (f : FormField) (fs : List FormField) :
    specScorePair (f :: fs) = combinePair (scoreStep none f) (specScorePair fs) := by
  rw [scoreStep_none]
  by_cases hq : qualifies f = true
  · rw [if_pos hq]
    unfold specScorePair
    rw [List.filter_cons, if_pos hq, List.map_cons]
    cases hm : listMaxQ ((fs.filter qualifies).map getVQ) with
    | none =>
      have h0 : (fs.filter qualifies).map getVQ = [] := listMaxQ_none hm
      have h1 : fs.filter qualifies = [] := List.map_eq_nil_iff.mp h0
      rw [h0, h1]
      simp [listMaxQ, combinePair]
    | some m =>
      simp only []
      have hmem : m ∈ (fs.filter qualifies).map getVQ := listMaxQ_mem m hm
      obtain ⟨g, hgmem, hgv⟩ := List.mem_map.mp hmem
      have hfs : ((fs.filter qualifies).find? (fun x => getVQ x == m)).isSome :=
        List.find?_isSome.mpr ⟨g, hgmem, by simp [hgv]⟩
      obtain ⟨g', hg'⟩ := Option.isSome_iff_exists.mp hfs
      rw [hg']
      have hLmax : listMaxQ (getVQ f :: (fs.filter qualifies).map getVQ)
          = some (max (getVQ f) m) := by
        rw [listMaxQ, hm]
      rw [hLmax]
      simp only []
      by_cases hvm : getVQ f < m
      · have hmax : max (getVQ f) m = m := max_eq_right (le_of_lt hvm)
        rw [hmax]
        have hhead : (getVQ f == m) = false := by
          simp [ne_of_lt hvm]
        have hstep : (f :: fs.filter qualifies).find? (fun x => getVQ x == m)
            = (fs.filter qualifies).find? (fun x => getVQ x == m) := by
          simp [List.find?_cons, hhead]
        rw [hstep, hg']
        simp [combinePair, hvm]
      · have hmax : max (getVQ f) m = getVQ f := max_eq_left (not_lt.mp hvm)
        rw [hmax]
        have hfind : (f :: fs.filter qualifies).find? (fun x => getVQ x == getVQ f)
            = some f := by
          simp [List.find?_cons]
        rw [hfind]
        simp [combinePair, hvm]
  · rw [if_neg hq]
    unfold specScorePair
    rw [List.filter_cons, if_neg hq]
    rfl

/-- The scoring loop computes exactly the argmax description. -/
lemma bestPair_eq_spec (fs : List FormField) : bestPair fs = specScorePair fs := by
  induction fs with
  | nil => rfl
  | cons f fs ih =>
    have hcons : bestPair (f :: fs) = combinePair (scoreStep none f) (bestPair fs) := by
      show List.foldl scoreStep (scoreStep none f) fs = _
      exact foldl_scoreStep fs (scoreStep none f)
    rw [hcons, ih, specScorePair_cons]

/-- C7: `computeArchetypeFromScores` selects, among fields of calculated type
whose lowercased label is a key of the static score map and whose value is
numeric, the entry with the strictly greatest value, resolving exact ties to
the first-encountered field (a later equal value never replaces the current
best), and maps its label through the score map; with no qualifying fields it
is `undefined` (`none`). In particular the 5/5 tie between `score_binger` and
`score_chaser` resolves to `Binger`. -/
theorem tally_C7_score_selection :
    (∀ fs, computeArchetypeFromScores fs = specScore fs) ∧
    computeArchetypeFromScores
      [⟨some "score_binger", some "CALCULATED_FIELDS", some (.num 5)⟩,
       ⟨some "score_chaser", some "CALCULATED_FIELDS", some (.num 5)⟩]
      = some "Binger" ∧
    computeArchetypeFromScores [] = none := by
  refine ⟨fun fs => ?_, by decide, rfl⟩
  unfold computeArchetypeFromScores specScore
  rw [bestPair_eq_spec]

/-- C6: `getEmail` resolves the email in the spec's priority order with first
match winning — (1) a truthy-valued `INPUT_EMAIL` field, (2) a truthy-valued
field whose label contains `email` case-insensitively, (3) a truthy-valued
`PAYMENT` field whose label contains `email`, (4) a text field whose string
value matches the email pattern — stated as equality with the rule-chain
`getEmailSpec`; and on
`[{type: INPUT_TEXT, value: a@b.com}, {type: INPUT_EMAIL, value: c@d.com}]`
it returns `c@d.com` (the typed field beats the earlier text-pattern field). -/
theorem tally_C6_email_priority :
    (∀ fs, getEmail fs = getEmailSpec fs) ∧
    getEmail [⟨none, some "INPUT_TEXT", some (.str "a@b.com")⟩,
              ⟨none, some "INPUT_EMAIL", some (.str "c@d.com")⟩]
      = some "c@d.com" := by
  refine ⟨fun fs => ?_, by decide⟩
  rfl

/-- C10: the payment-email branch of `getEmail` (priority 3) is subsumed by
priority 2 — every field it accepts already has a label containing `email`
and a truthy value — so removing it never changes the result. -/
theorem tally_C10_payment_subsumed (fs : List FormField) :
    getEmail fs = getEmailNoPay fs := by
  unfold getEmail getEmailNoPay
  cases h1 : fs.find? emailP1 with
  | some t => rfl
  | none =>
    cases h2 : fs.find? emailP2 with
    | some f => rfl
    | none =>
      have h3 : fs.find? emailP3 = none := by
        rw [List.find?_eq_none] at h2 ⊢
        intro x hx hp3
        rw [emailP3, Bool.and_eq_true] at hp3
        exact h2 x hx hp3.2
      rw [h3]

/-- C2: ordering invariant. If signature verification fails (or is never
reached), the handler's effect trace is empty — the body is never handed to
`JSON.parse`, no field extraction runs, and no outbound call is attempted —
and on a POST with the secret configured, a failing verification yields
exactly the 401 invalid-signature response with an empty trace. -/
theorem tally_C2_verify_before_parse (parse : String → Option JVal)
    (ml : String → Option String → Option String → String → MLResult)
    (env : Env) (req : Req)
    (hv : verifyTallySignature req.rawBody req.sigHeader (env.secret.getD "") = false) :
    (handler parse ml env req).2 = [] ∧
    (req.method = "POST" → strTruthyOpt env.secret = true →
      handler parse ml env req = (⟨401, .invalidSignature⟩, [])) := by
  by_cases hm : req.method = "POST"
  · cases hs : strTruthyOpt env.secret with
    | false =>
      constructor
      · simp [handler, hm, hs]
      · intro _ h2
        exact Bool.noConfusion h2
    | true =>
      have hh : handler parse ml env req = (⟨401, .invalidSignature⟩, []) := by
        simp [handler, hm, hs, hv]
      rw [hh]
      exact ⟨rfl, fun _ _ => rfl⟩
  · constructor
    · simp [handler, hm]
    · intro h
      exact absurd h hm

/-- C2 witness: a POST with a configured secret and the unparseable header
`"garbage"` is rejected with 401 and an empty effect trace. -/
theorem tally_C2_witness :
    handler (fun _ => none) (fun _ _ _ _ => ⟨true, 200⟩)
      ⟨some "k", false, none, none⟩ ⟨"POST", "x", some "garbage"⟩
      = (⟨401, .invalidSignature⟩, []) :=
  (tally_C2_verify_before_parse (fun _ => none) (fun _ _ _ _ => ⟨true, 200⟩)
    ⟨some "k", false, none, none⟩ ⟨"POST", "x", some "garbage"⟩ (by decide)).2 rfl rfl

/-- A payload whose `data.fields` is missing or not an array yields the empty
field list. -/
lemma fieldsOf_eq_nil {body : JVal}
    (h : ∀ xs, jsGet (jsGet (some body) "data") "fields" ≠ some (.arr xs)) :
    fieldsOf body = [] := by
  unfold fieldsOf
  cases hj : jsGet (jsGet (some body) "data") "fields" with
  | none => rfl
  | some v =>
    cases v with
    | arr xs => exact absurd hj (h xs)
    | null => rfl
    | jbool b => rfl
    | num q => rfl
    | str s => rfl
    | obj kvs => rfl

/-- Falsiness of an absent optional string. -/
lemma strTruthyOpt_none : strTruthyOpt none = false := rfl

/-- Extraction on the empty field list. -/
lemma getEmail_nil : getEmail [] = none := rfl

/-- First-name extraction on the empty field list. -/
lemma getFirstName_nil : getFirstName [] = none := rfl

/-- Archetype extraction on the empty field list. -/
lemma getArchetype_nil : getArchetype [] = none := rfl

/-- Score fallback on the empty field list. -/
lemma computeArchetypeFromScores_nil : computeArchetypeFromScores [] = none := rfl

/-- C8: on a verified POST whose parsed body has a missing or non-array
`data.fields`, the handler treats it as the empty field list and proceeds
through extraction to the not-found outcome — a 200 missing-email response
(after running the parse and extract steps), not an error status. -/
theorem tally_C8_nonarray_fields (parse : String → Option JVal)
    (ml : String → Option String → Option String → String → MLResult)
    (env : Env) (req : Req) (body : JVal)
    (hm : req.method = "POST") (hs : strTruthyOpt env.secret = true)
    (hv : verifyTallySignature req.rawBody req.sigHeader (env.secret.getD "") = true)
    (hp : parse req.rawBody = some body)
    (hnf : ∀ xs, jsGet (jsGet (some body) "data") "fields" ≠ some (.arr xs)) :
    handler parse ml env req
      = (⟨200, .missingEmail none⟩, [.parseAttempt, .extract]) := by
  have hf : fieldsOf body = [] := fieldsOf_eq_nil hnf
  simp [handler, hm, hs, hv, hp, hf, getEmail_nil, getArchetype_nil,
    computeArchetypeFromScores_nil, strTruthyOpt_none]

/-- C8 witness: a verified POST whose body parses to `{}` (no `data` at all)
is acknowledged with 200 missing-email after parse and extraction. -/
theorem tally_C8_witness :
    handler (fun _ => some (.obj [])) (fun _ _ _ _ => ⟨true, 200⟩)
      ⟨some "k", false, none, none⟩
      ⟨"POST", "x",
        some ("t=" ++ "1" ++ ",v1=" ++ hmacSha256Hex "k" ("1" ++ "." ++ "x"))⟩
      = (⟨200, .missingEmail none⟩, [.parseAttempt, .extract]) :=
  tally_C8_nonarray_fields _ _ _ _ (.obj []) rfl rfl
    (verify_roundtrip "1" "x" "k" (by decide) (by decide) (by decide))
    rfl (fun xs h => Option.noConfusion h)

/-- Decoding a JSON-encoded field record restores the record. -/
lemma decode_fieldToJson (f : FormField) : decodeField (fieldToJson f) = f := by
  rcases f with ⟨l, t, v⟩
  cases v with
  | none => cases l <;> cases t <;> rfl
  | some w => cases w <;> (cases l <;> cases t <;> rfl)

/-- Decoding the JSON-encoded field list restores it. -/
lemma map_decode_fieldToJson (fs : List FormField) :
    List.map (decodeField ∘ fieldToJson) fs = fs := by
  induction fs with
  | nil => rfl
  | cons f fs ih => simp [Function.comp, decode_fieldToJson, ih]

/-- `data.fields` of a constructed payload. -/
lemma fieldsOf_mkPayload (fs : List FormField) :
    fieldsOf (mkPayload fs) = fs.map fieldToJson := rfl

/-- C9: on a verified POST whose field list contains no email-like entry (no
field satisfies any of the four email rules), `getEmail` returns `none`, and
the handler acknowledges with 200 and a missing-email body — making no
outbound call (the trace ends at extraction). -/
theorem tally_C9_missing_email (parse : String → Option JVal)
    (ml : String → Option String → Option String → String → MLResult)
    (env : Env) (req : Req) (fs : List FormField)
    (hm : req.method = "POST") (hs : strTruthyOpt env.secret = true)
    (hv : verifyTallySignature req.rawBody req.sigHeader (env.secret.getD "") = true)
    (hp : parse req.rawBody = some (mkPayload fs))
    (hne : ∀ f ∈ fs, emailP1 f = false ∧ emailP2 f = false
      ∧ emailP3 f = false ∧ emailP4 f = false) :
    getEmail fs = none ∧
    ∃ a, handler parse ml env req
      = (⟨200, .missingEmail a⟩, [.parseAttempt, .extract]) := by
  have h1 : fs.find? emailP1 = none :=
    List.find?_eq_none.mpr (fun x hx => by simp [(hne x hx).1])
  have h2 : fs.find? emailP2 = none :=
    List.find?_eq_none.mpr (fun x hx => by simp [(hne x hx).2.1])
  have h3 : fs.find? emailP3 = none :=
    List.find?_eq_none.mpr (fun x hx => by simp [(hne x hx).2.2.1])
  have h4 : fs.find? emailP4 = none :=
    List.find?_eq_none.mpr (fun x hx => by simp [(hne x hx).2.2.2])
  have hget : getEmail fs = none := by
    unfold getEmail
    rw [h1, h2, h3, h4]
  refine ⟨hget,
    (if strTruthyOpt (getArchetype fs) then getArchetype fs
     else computeArchetypeFromScores fs), ?_⟩
  simp [handler, hm, hs, hv, hp, fieldsOf_mkPayload, map_decode_fieldToJson,
    hget, strTruthyOpt_none]

/-- C9 witness: a verified POST whose only field is a plain text name — no
email-like entry — yields `getEmail = none` and the 200 missing-email
acknowledgment with no outbound call. -/
theorem tally_C9_witness :
    getEmail [⟨some "Name", some "INPUT_TEXT", some (.str "Ray")⟩] = none ∧
    ∃ a, handler
      (fun _ => some (mkPayload [⟨some "Name", some "INPUT_TEXT", some (.str "Ray")⟩]))
      (fun _ _ _ _ => ⟨true, 200⟩) ⟨some "k", false, none, none⟩
      ⟨"POST", "x",
        some ("t=" ++ "1" ++ ",v1=" ++ hmacSha256Hex "k" ("1" ++ "." ++ "x"))⟩
      = (⟨200, .missingEmail a⟩, [.parseAttempt, .extract]) :=
  tally_C9_missing_email _ _ _ _ _ rfl rfl
    (verify_roundtrip "1" "x" "k" (by decide) (by decide) (by decide))
    rfl (by decide)
